import Mathlib

/-!
# Caffeine tracker: decay model, chart series and intake history

A shallow embedding of `src/main.jsx`.

Modelling conventions.

* A JavaScript `Date` is its `getTime()` value: an integer number of
  milliseconds (`Int`).  `intake.time` is stored as the ISO string of such a
  value and read back with `new Date(intake.time)`, which yields the same
  number of milliseconds, so the record field holds the milliseconds.
* A JavaScript number that carries a caffeine amount is an element of an
  ordered field `R` (exact arithmetic; rounding of doubles is not modelled).
  `NaN` is `none` in an `Option R`.
* `Math.pow` and `parseFloat` are functions of the host and are parameters.
  Theorems that need facts about powers are stated for `R = ℝ` with the real
  power function.
* `t.setMinutes(t.getMinutes() + 5)` is read in a time zone whose offset is
  constant over the sampled window, where it advances `t` by 300000 ms.
* The clock is an input: `Date.now()` and `new Date()` are arguments of the
  handler that reads them.
-/

namespace CaffeineTracker

/-! ## Data -/

/-- An entry of `intakeHistory` (`newIntake`, lines 92-97). -/
structure Intake (R : Type) where
  id : Int
  time : Int
  amount : R
  name : String

/-- An element of `chartData` (lines 74-77): `time` and `'Caffeine (mg)'`. -/
structure ChartPoint (R : Type) where
  time : Int
  caffeine : R

/-- The table `popularDrinks` (lines 6-21). -/
def popularDrinks : List (String × Nat) :=
  [ ("Select a drink...", 0),
    ("Starbucks - Pike Place Roast (Grande, 16oz)", 310),
    ("Starbucks - Blonde Roast (Grande, 16oz)", 360),
    ("Starbucks - Cold Brew (Grande, 16oz)", 205),
    ("Starbucks - Iced Coffee (Grande, 16oz)", 165),
    ("Starbucks - Espresso Shot", 75),
    ("Dunkin' - Original Blend (Medium, 14oz)", 210),
    ("Dunkin' - Cold Brew (Medium, 24oz)", 260),
    ("Dunkin' - Espresso Shot", 98),
    ("Monster Energy (16oz)", 160),
    ("Red Bull (8.4oz)", 80),
    ("Diet Coke (12oz)", 46),
    ("Black Tea (8oz)", 47),
    ("Green Tea (8oz)", 28) ]

/-- The part of the component state that the handlers read and write
(lines 26-28). -/
structure AppState (R : Type) where
  intakeHistory : List (Intake R)
  selectedDrink : String
  customAmount : String

/-- The initial values given to `useState` (lines 26-28). -/
def initialState (R : Type) : AppState R :=
  { intakeHistory := [], selectedDrink := "Select a drink...", customAmount := "" }

section Model

variable {R : Type} [LinearOrderedField R]

/-! ## Decay model -/

/-- The function `calculateCaffeineAtTime` (lines 34-42): a left fold over the
history that skips a dose whose elapsed time is negative. -/
def calculateCaffeineAtTime (pow : R → R → R) (targetTime : Int)
    (history : List (Intake R)) (hf : R) : R :=
  history.foldl
    (fun total intake =>
      let timeElapsedHours : R := ((targetTime - intake.time : Int) : R) / (1000 * 60 * 60)
      if timeElapsedHours < 0 then total
      else
        let remainingCaffeine : R := intake.amount * pow 0.5 (timeElapsedHours / hf)
        total + remainingCaffeine)
    0

/-! ## Chart series -/

/-- The value of `parseFloat(x.toFixed(2))` (line 76): `toFixed` strips the
sign, takes the integer `n` with `n / 100` closest to the magnitude (the larger
`n` on a tie) and prints `n / 100`. -/
def toFixed2 [FloorRing R] (x : R) : R :=
  if x < 0 then -((⌊(-x) * 100 + 1 / 2⌋ : Int) : R) / 100
  else ((⌊x * 100 + 1 / 2⌋ : Int) : R) / 100

/-- The `for` loop of `generateChartData` (lines 69-78); `t` is the loop
variable and `data` the array built so far. -/
def chartLoop [FloorRing R] (pow : R → R → R) (history : List (Intake R)) (halfLife : R)
    (startTime endTime : Int) (t : Int) (data : List (ChartPoint R)) : List (ChartPoint R) :=
  if t ≤ endTime then
    if t < startTime - 1 * 60 * 60 * 1000 then
      chartLoop pow history halfLife startTime endTime (t + 5 * 60 * 1000) data
    else
      let caffeineLevel := calculateCaffeineAtTime pow t history halfLife
      chartLoop pow history halfLife startTime endTime (t + 5 * 60 * 1000)
        (data ++ [{ time := t, caffeine := toFixed2 caffeineLevel }])
  else data
termination_by (endTime - t + 1).toNat
decreasing_by all_goals omega

/-- The function `generateChartData` (lines 62-80); the result is the array
handed to `setChartData`. -/
def generateChartData [FloorRing R] (pow : R → R → R) (intakeHistory : List (Intake R))
    (halfLife : R) (now : Int) : List (ChartPoint R) :=
  let startTime : Int :=
    match intakeHistory with
    | first :: _ => first.time
    | [] => now
  let endTime : Int := now + 24 * 60 * 60 * 1000
  chartLoop pow intakeHistory halfLife startTime endTime startTime []

/-- The expression of line 90:
`customAmount ? parseFloat(customAmount) : popularDrinks[selectedDrink] || 0`. -/
def readAmount (parseFloat : String → Option R) (s : AppState R) : Option R :=
  if s.customAmount ≠ "" then parseFloat s.customAmount
  else
    match popularDrinks.lookup s.selectedDrink with
    | some mg => some (mg : R)
    | none => some 0

/-- The expression of line 96:
`customAmount ? 'Custom' : selectedDrink.split(' - ')[1] || selectedDrink`. -/
def intakeName (s : AppState R) : String :=
  if s.customAmount ≠ "" then "Custom"
  else
    match (s.selectedDrink.splitOn " - ")[1]? with
    | some part => if part = "" then s.selectedDrink else part
    | none => s.selectedDrink

/-- The record `newIntake` (lines 92-97). -/
def newIntake (idNow timeNow : Int) (amount : R) (s : AppState R) : Intake R :=
  { id := idNow, time := timeNow, amount := amount, name := intakeName s }

/-- The handler `handleAddIntake` (lines 89-103).  `idNow` is the value of
`Date.now()` and `timeNow` that of `new Date()`.  `Array.prototype.sort` is
stable, and so is insertion sort with the comparison `a.time ≤ b.time`. -/
def handleAddIntake (parseFloat : String → Option R) (idNow timeNow : Int)
    (s : AppState R) : AppState R :=
  match readAmount parseFloat s with
  | some amount =>
    if amount > 0 then
      let sortedHistory :=
        (s.intakeHistory ++ [newIntake idNow timeNow amount s]).insertionSort
          (fun a b => a.time ≤ b.time)
      { intakeHistory := sortedHistory, customAmount := "", selectedDrink := "Select a drink..." }
    else s
  | none => s

/-- The handler `handleRemoveIntake` (lines 105-107). -/
def handleRemoveIntake (id : Int) (s : AppState R) : AppState R :=
  { s with intakeHistory := s.intakeHistory.filter (fun intake => intake.id ≠ id) }

/-- The handler `handleDrinkChange` (lines 109-112). -/
def handleDrinkChange (value : String) (s : AppState R) : AppState R :=
  { s with selectedDrink := value, customAmount := "" }

/-- The handler `handleCustomAmountChange` (lines 114-117). -/
def handleCustomAmountChange (value : String) (s : AppState R) : AppState R :=
  { s with customAmount := value, selectedDrink := "Select a drink..." }

/-! ## The decay model as the specification words it -/

/-- The contribution of one dose as the specification states it: `0` when the
elapsed time `target - timestamp` in hours is negative, and
`amount * 0.5 ^ (elapsed / half_life)` otherwise. -/
def contributionSpec (pow : R → R → R) (targetTime : Int) (hl : R) (e : Intake R) : R :=
  if ((targetTime - e.time : Int) : R) / 3600000 < 0 then 0
  else e.amount * pow 0.5 (((targetTime - e.time : Int) : R) / 3600000 / hl)

/-- The level as the specification states it: the sum of all contributions. -/
def levelSpec (pow : R → R → R) (targetTime : Int) (history : List (Intake R)) (hl : R) : R :=
  (history.map (contributionSpec pow targetTime hl)).sum

end Model

/-! ## Runs of the component -/

/-- A user event together with the clock readings its handler makes. -/
inductive Action where
  | drinkChange (value : String)
  | customAmountChange (value : String)
  | addIntake (idNow timeNow : Int)
  | removeIntake (id : Int)

section Runs

variable {R : Type} [LinearOrderedField R]

/-- One event: the state after its handler has run. -/
def step (parseFloat : String → Option R) (s : AppState R) : Action → AppState R
  | .drinkChange value => handleDrinkChange value s
  | .customAmountChange value => handleCustomAmountChange value s
  | .addIntake idNow timeNow => handleAddIntake parseFloat idNow timeNow s
  | .removeIntake id => handleRemoveIntake id s

/-- The state reached from `s` by a sequence of events. -/
def runFrom (parseFloat : String → Option R) (s : AppState R) (acts : List Action) :
    AppState R :=
  acts.foldl (step parseFloat) s

/-- The state reached from the initial state. -/
def run (parseFloat : String → Option R) (acts : List Action) : AppState R :=
  runFrom parseFloat (initialState R) acts

/-- The records an event inserts into the history: the new intake of an
accepted add, nothing otherwise. -/
def inserted (parseFloat : String → Option R) (s : AppState R) : Action → List (Intake R)
  | .addIntake idNow timeNow =>
    match readAmount parseFloat s with
    | some amount => if amount > 0 then [newIntake idNow timeNow amount s] else []
    | none => []
  | _ => []

/-- The records inserted during a run from `s`, in the order of insertion. -/
def insertionLogFrom (parseFloat : String → Option R) :
    AppState R → List Action → List (Intake R)
  | _, [] => []
  | s, a :: acts => inserted parseFloat s a ++ insertionLogFrom parseFloat (step parseFloat s a) acts

/-- The records inserted during a run from the initial state. -/
def insertionLog (parseFloat : String → Option R) (acts : List Action) : List (Intake R) :=
  insertionLogFrom parseFloat (initialState R) acts

end Runs

/-! ## Decay model: lemmas -/

section DecayLemmas

variable {R : Type} [LinearOrderedField R]

theorem foldl_level_acc (pow : R → R → R) (t : Int) (hf : R) (history : List (Intake R))
    (acc : R) :
    history.foldl
      (fun total intake =>
        let timeElapsedHours : R := ((t - intake.time : Int) : R) / (1000 * 60 * 60)
        if timeElapsedHours < 0 then total
        else
          let remainingCaffeine : R := intake.amount * pow 0.5 (timeElapsedHours / hf)
          total + remainingCaffeine)
      acc
      = acc + levelSpec pow t history hf := by
  induction history generalizing acc with
  | nil => simp [levelSpec]
  | cons e rest ih =>
    rw [List.foldl_cons, ih]
    have h36 : (1000 * 60 * 60 : R) = 3600000 := by norm_num
    simp only [levelSpec, List.map_cons, List.sum_cons, contributionSpec, h36]
    split_ifs <;> ring

theorem level_eq_levelSpec (pow : R → R → R) (t : Int) (history : List (Intake R)) (hf : R) :
    calculateCaffeineAtTime pow t history hf = levelSpec pow t history hf := by
  unfold calculateCaffeineAtTime
  rw [foldl_level_acc, zero_add]

theorem level_append (pow : R → R → R) (t : Int) (h1 h2 : List (Intake R)) (hf : R) :
    calculateCaffeineAtTime pow t (h1 ++ h2) hf
      = calculateCaffeineAtTime pow t h1 hf + calculateCaffeineAtTime pow t h2 hf := by
  simp [level_eq_levelSpec, levelSpec]

theorem level_singleton (pow : R → R → R) (t : Int) (d : Intake R) (hf : R) :
    calculateCaffeineAtTime pow t [d] hf = contributionSpec pow t hf d := by
  simp [level_eq_levelSpec, levelSpec]

end DecayLemmas

/-! ## Decay model: the claims -/

section DecayClaims

theorem contributionSpec_antitone (hl : ℝ) (hpos : 0 < hl) (e : Intake ℝ) (ha : 0 ≤ e.amount)
    (t1 t2 : Int) (h12 : t1 ≤ t2) (hout : ¬ (t1 < e.time ∧ e.time ≤ t2)) :
    contributionSpec (fun b x : ℝ => b ^ x) t2 hl e
      ≤ contributionSpec (fun b x : ℝ => b ^ x) t1 hl e := by
  have hneg : ∀ t : Int, (((t - e.time : Int) : ℝ) / 3600000 < 0) ↔ t < e.time := by
    intro t
    rw [div_lt_iff₀ (by norm_num : (0 : ℝ) < 3600000), zero_mul]
    have : (((t - e.time : Int) : ℝ) < 0) ↔ (t - e.time < 0) := by exact_mod_cast Iff.rfl
    rw [this]; omega
  unfold contributionSpec
  by_cases h2 : t2 < e.time
  · have h1 : t1 < e.time := by omega
    rw [if_pos ((hneg t2).2 h2), if_pos ((hneg t1).2 h1)]
  · have h1 : ¬ t1 < e.time := by
      intro h; exact hout ⟨h, by omega⟩
    rw [if_neg (fun h => h2 ((hneg t2).1 h)), if_neg (fun h => h1 ((hneg t1).1 h))]
    apply mul_le_mul_of_nonneg_left _ ha
    apply Real.rpow_le_rpow_of_exponent_ge (by norm_num) (by norm_num)
    apply div_le_div_of_nonneg_right _ hpos.le
    apply div_le_div_of_nonneg_right _ (by norm_num)
    exact_mod_cast (by omega : t1 - e.time ≤ t2 - e.time)

/-- C1: for every target time, history and half-life `hl > 0`,
`calculateCaffeineAtTime` is the sum over the events of the history of the
contribution `c(e)`, with `c(e) = 0` when the elapsed time is negative and
`c(e) = e.amount * 0.5 ^ (elapsed hours / hl)` otherwise; it is `0` for the
empty history. -/
theorem calculateCaffeineAtTime_eq_sum_contributions {R : Type} [LinearOrderedField R]
    (pow : R → R → R) (t : Int) (history : List (Intake R)) (hl : R) (hpos : 0 < hl) :
    calculateCaffeineAtTime pow t history hl
        = (history.map (fun e =>
            if ((t - e.time : Int) : R) / 3600000 < 0 then 0
            else e.amount * pow 0.5 (((t - e.time : Int) : R) / 3600000 / hl))).sum
      ∧ calculateCaffeineAtTime pow t [] hl = 0 := by
  have _ := hpos
  constructor
  · rw [level_eq_levelSpec]; rfl
  · rfl

theorem calculateCaffeineAtTime_eq_sum_contributions_witness :
    (0 : ℝ) < 5 ∧
      (calculateCaffeineAtTime (fun b x : ℝ => b ^ x) 18000000
          [⟨1, 0, 100, "Espresso Shot"⟩, ⟨2, 36000000, 80, "Red Bull (8.4oz)"⟩] 5
        = ([⟨1, 0, 100, "Espresso Shot"⟩, ⟨2, 36000000, 80, "Red Bull (8.4oz)"⟩].map
            (fun e : Intake ℝ =>
              if ((18000000 - e.time : Int) : ℝ) / 3600000 < 0 then 0
              else e.amount * (fun b x : ℝ => b ^ x) 0.5
                (((18000000 - e.time : Int) : ℝ) / 3600000 / 5))).sum
      ∧ calculateCaffeineAtTime (fun b x : ℝ => b ^ x) 18000000 [] 5 = 0) :=
  ⟨by norm_num, calculateCaffeineAtTime_eq_sum_contributions _ _ _ _ (by norm_num)⟩

/-- C2: for every half-life `hl > 0`, single dose `D` and natural number `k`, at a
target time that lies exactly `k` half-lives after the dose (elapsed hours
`= k * hl`) the level is `D.amount / 2 ^ k`: the full amount at the time of the
dose, half of it one half-life later, and half again with each further
half-life. -/
theorem single_dose_level_after_k_half_lives (hl : ℝ) (hpos : 0 < hl) (D : Intake ℝ) (k : ℕ)
    (t : Int) (ht : ((t - D.time : Int) : ℝ) / 3600000 = k * hl) :
    calculateCaffeineAtTime (fun b x : ℝ => b ^ x) t [D] hl = D.amount / 2 ^ k := by
  rw [level_singleton]
  unfold contributionSpec
  rw [ht]
  have hk : ¬ ((k : ℝ) * hl < 0) := not_lt.2 (by positivity)
  rw [if_neg hk, mul_div_assoc, div_self hpos.ne', mul_one]
  simp only [Real.rpow_natCast]
  have h05 : (0.5 : ℝ) = 1 / 2 := by norm_num
  rw [h05, one_div, inv_pow, div_eq_mul_inv]

theorem single_dose_level_after_k_half_lives_witness :
    ((0 : ℝ) < 5 ∧ ((18000000 - 0 : Int) : ℝ) / 3600000 = ((1 : ℕ) : ℝ) * 5)
      ∧ calculateCaffeineAtTime (fun b x : ℝ => b ^ x) 18000000
          [⟨1, 0, 100, "Espresso Shot"⟩] 5 = 100 / 2 ^ 1 :=
  ⟨⟨by norm_num, by norm_num⟩,
    single_dose_level_after_k_half_lives 5 (by norm_num) ⟨1, 0, 100, "Espresso Shot"⟩ 1 18000000
      (by norm_num)⟩

/-- C3: superposition.  The level of a history is the sum of the levels of its
single-dose histories, and the level of a concatenation is the sum of the
levels of the two parts; 100 mg at `t0` and 100 mg five hours later give 150 at
`t0 + 5 h` with a half-life of 5 hours. -/
theorem calculateCaffeineAtTime_superposition :
    (∀ (R : Type) [LinearOrderedField R] (pow : R → R → R) (t : Int)
        (history : List (Intake R)) (hl : R),
        calculateCaffeineAtTime pow t history hl
          = (history.map (fun d => calculateCaffeineAtTime pow t [d] hl)).sum)
      ∧ (∀ (R : Type) [LinearOrderedField R] (pow : R → R → R) (t : Int)
          (h1 h2 : List (Intake R)) (hl : R),
          calculateCaffeineAtTime pow t (h1 ++ h2) hl
            = calculateCaffeineAtTime pow t h1 hl + calculateCaffeineAtTime pow t h2 hl)
      ∧ (∀ (t0 id1 id2 : Int) (n1 n2 : String),
          calculateCaffeineAtTime (fun b x : ℝ => b ^ x) (t0 + 18000000)
            [⟨id1, t0, 100, n1⟩, ⟨id2, t0 + 18000000, 100, n2⟩] 5 = 150) := by
  refine ⟨?_, ?_, ?_⟩
  · intro R _ pow t history hl
    rw [level_eq_levelSpec, levelSpec]
    congr 1
    apply List.map_congr_left
    intro d _
    rw [level_singleton]
  · intro R _ pow t h1 h2 hl
    exact level_append pow t h1 h2 hl
  · intro t0 id1 id2 n1 n2
    rw [level_eq_levelSpec]
    simp only [levelSpec, contributionSpec, List.map_cons, List.map_nil, List.sum_cons,
      List.sum_nil]
    have e1 : t0 + 18000000 - t0 = 18000000 := by ring
    have e2 : t0 + 18000000 - (t0 + 18000000) = 0 := by ring
    rw [e1, e2]
    norm_num

/-- C4: monotonic decay.  For a half-life `hl > 0`, a history whose amounts are
all positive and times `t1 < t2` with no event stamped in `(t1, t2]`, the level
at `t1` is at least the level at `t2`. -/
theorem calculateCaffeineAtTime_monotonic_decay (hl : ℝ) (hpos : 0 < hl)
    (history : List (Intake ℝ)) (hamount : ∀ e ∈ history, 0 < e.amount) (t1 t2 : Int)
    (h12 : t1 < t2) (hnone : ∀ e ∈ history, ¬ (t1 < e.time ∧ e.time ≤ t2)) :
    calculateCaffeineAtTime (fun b x : ℝ => b ^ x) t1 history hl
      ≥ calculateCaffeineAtTime (fun b x : ℝ => b ^ x) t2 history hl := by
  rw [level_eq_levelSpec, level_eq_levelSpec, ge_iff_le]
  unfold levelSpec
  apply List.sum_le_sum
  intro e he
  exact contributionSpec_antitone hl hpos e (hamount e he).le t1 t2 h12.le (hnone e he)

theorem calculateCaffeineAtTime_monotonic_decay_witness :
    ((0 : ℝ) < 5
        ∧ (∀ e ∈ ([⟨1, 0, 100, "Espresso Shot"⟩] : List (Intake ℝ)), 0 < e.amount)
        ∧ (3600000 : Int) < 7200000
        ∧ (∀ e ∈ ([⟨1, 0, 100, "Espresso Shot"⟩] : List (Intake ℝ)),
            ¬ ((3600000 : Int) < e.time ∧ e.time ≤ 7200000)))
      ∧ calculateCaffeineAtTime (fun b x : ℝ => b ^ x) 3600000
            [⟨1, 0, 100, "Espresso Shot"⟩] 5
          ≥ calculateCaffeineAtTime (fun b x : ℝ => b ^ x) 7200000
            [⟨1, 0, 100, "Espresso Shot"⟩] 5 :=
  ⟨⟨by norm_num, by simp, by decide, by simp⟩,
    calculateCaffeineAtTime_monotonic_decay 5 (by norm_num) [⟨1, 0, 100, "Espresso Shot"⟩]
      (by simp) 3600000 7200000 (by decide) (by simp)⟩

end DecayClaims

/-! ## Chart series: lemmas -/

section ChartLemmas

variable {R : Type} [LinearOrderedField R] [FloorRing R]

theorem chartLoop_eq_range (pow : R → R → R) (history : List (Intake R)) (halfLife : R)
    (startTime endTime : Int) (n : ℕ) :
    ∀ (t : Int) (data : List (ChartPoint R)), startTime - 3600000 ≤ t →
      n = ((endTime - t) / 300000 + 1).toNat →
      chartLoop pow history halfLife startTime endTime t data
        = data ++ (List.range n).map (fun i : ℕ =>
            ({ time := t + i * 300000,
               caffeine := toFixed2 (calculateCaffeineAtTime pow (t + i * 300000) history
                 halfLife) } : ChartPoint R)) := by
  induction n with
  | zero =>
    intro t data _ hn
    have hgt : ¬ t ≤ endTime := by omega
    rw [chartLoop, if_neg hgt]
    simp
  | succ n ih =>
    intro t data hlo hn
    have hle : t ≤ endTime := by omega
    have hguard : ¬ t < startTime - 1 * 60 * 60 * 1000 := by omega
    rw [chartLoop, if_pos hle, if_neg hguard]
    simp only []
    rw [ih (t + 5 * 60 * 1000) _ (by omega) (by omega)]
    rw [List.range_succ_eq_map, List.map_cons, List.map_map, List.append_assoc]
    simp only [List.singleton_append, Nat.cast_zero, zero_mul, add_zero]
    congr 2
    apply List.map_congr_left
    intro i _
    have hi : t + 5 * 60 * 1000 + (i : Int) * 300000 = t + ((i + 1 : ℕ) : Int) * 300000 := by
      push_cast; ring
    simp only [Function.comp, Nat.succ_eq_add_one, hi]

theorem generateChartData_eq_range (pow : R → R → R) (first : Intake R)
    (rest : List (Intake R)) (halfLife : R) (now : Int) :
    generateChartData pow (first :: rest) halfLife now
      = (List.range ((now + 86400000 - first.time) / 300000 + 1).toNat).map (fun i : ℕ =>
          ({ time := first.time + i * 300000,
             caffeine := toFixed2 (calculateCaffeineAtTime pow (first.time + i * 300000)
               (first :: rest) halfLife) } : ChartPoint R)) := by
  unfold generateChartData
  simp only []
  rw [chartLoop_eq_range pow (first :: rest) halfLife first.time (now + 24 * 60 * 60 * 1000)
    ((now + 86400000 - first.time) / 300000 + 1).toNat first.time [] (by omega) (by omega)]
  simp

end ChartLemmas

/-! ## Chart series: the claims -/

section ChartClaims

theorem generateChartData_head? {R : Type} [LinearOrderedField R] [FloorRing R]
    (pow : R → R → R) (first : Intake R) (rest : List (Intake R)) (halfLife : R) (now : Int)
    (h : first.time ≤ now + 86400000) :
    (generateChartData pow (first :: rest) halfLife now).head?
      = some { time := first.time,
               caffeine := toFixed2 (calculateCaffeineAtTime pow first.time (first :: rest)
                 halfLife) } := by
  rw [generateChartData_eq_range]
  obtain ⟨m, hm⟩ : ∃ m : ℕ, ((now + 86400000 - first.time) / 300000 + 1).toNat = m + 1 :=
    ⟨((now + 86400000 - first.time) / 300000).toNat, by omega⟩
  rw [hm, List.range_succ_eq_map]
  simp

/-- C5: the code at a single dose logged at 02:00:00.000 (7200000 ms) and a
chart generated at that same instant: the first sample is stamped 7200000, the
dose's own timestamp, and not 3600000, one hour earlier. -/
theorem generateChartData_first_sample_is_first_event :
    ((generateChartData (fun b x : ℝ => b ^ x) [⟨1, 7200000, 100, "Espresso Shot"⟩] 5
        7200000).head?.map ChartPoint.time) = some 7200000
      ∧ ((generateChartData (fun b x : ℝ => b ^ x) [⟨1, 7200000, 100, "Espresso Shot"⟩] 5
        7200000).head?.map ChartPoint.time) ≠ some (7200000 - 3600000) := by
  rw [generateChartData_head? _ _ _ _ _ (by decide)]
  simp

end ChartClaims

/-! ## Intake history: lemmas -/

section SortLemmas

variable {α : Type} (r : α → α → Prop) [DecidableRel r]

theorem filter_orderedInsert_of_neg (p : α → Bool) (a : α) (hpa : p a = false) (l : List α) :
    (l.orderedInsert r a).filter p = l.filter p := by
  induction l with
  | nil => simp [hpa]
  | cons b l ih =>
    rw [List.orderedInsert]
    split_ifs with hab
    · rw [List.filter_cons_of_neg (by simp [hpa])]
    · rw [List.filter_cons, List.filter_cons, ih]

theorem filter_orderedInsert_of_pos (p : α → Bool) (a : α) (hpa : p a = true) (l : List α)
    (hle : ∀ b ∈ l, p b = true → r a b) :
    (l.orderedInsert r a).filter p = a :: l.filter p := by
  induction l with
  | nil => simp [hpa]
  | cons b l ih =>
    rw [List.orderedInsert]
    split_ifs with hab
    · rw [List.filter_cons_of_pos hpa]
    · have hpb : p b = false := by
        by_contra h
        exact hab (hle b (List.mem_cons_self _ _) (by simpa using h))
      rw [List.filter_cons_of_neg (by simp [hpb]), List.filter_cons_of_neg (by simp [hpb])]
      exact ih (fun c hc hpc => hle c (List.mem_cons_of_mem _ hc) hpc)

end SortLemmas

section StableSortLemmas

variable {R : Type}

theorem filter_time_insertionSort (τ : Int) (l : List (Intake R)) :
    (l.insertionSort (fun a b => a.time ≤ b.time)).filter (fun e => e.time = τ)
      = l.filter (fun e => e.time = τ) := by
  induction l with
  | nil => simp
  | cons a l ih =>
    rw [List.insertionSort]
    by_cases ha : a.time = τ
    · rw [filter_orderedInsert_of_pos _ _ a (by simpa using ha), ih,
        List.filter_cons_of_pos (by simpa using ha)]
      intro b _ hb
      have hb2 : b.time = τ := by simpa using hb
      show a.time ≤ b.time
      omega
    · rw [filter_orderedInsert_of_neg _ _ a (by simpa using ha), ih,
        List.filter_cons_of_neg (by simpa using ha)]

theorem sorted_insertionSort_time (l : List (Intake R)) :
    (l.insertionSort (fun a b => a.time ≤ b.time)).Sorted (fun a b => a.time ≤ b.time) := by
  haveI : IsTotal (Intake R) (fun a b => a.time ≤ b.time) := ⟨fun a b => le_total a.time b.time⟩
  haveI : IsTrans (Intake R) (fun a b => a.time ≤ b.time) :=
    ⟨fun a b c hab hbc => le_trans hab hbc⟩
  exact List.sorted_insertionSort _ l

end StableSortLemmas

section HistoryLemmas

variable {R : Type} [LinearOrderedField R]

theorem handleAddIntake_of_pos (parseFloat : String → Option R) (idNow timeNow : Int)
    (s : AppState R) (amount : R) (hread : readAmount parseFloat s = some amount)
    (hpos : 0 < amount) :
    (handleAddIntake parseFloat idNow timeNow s).intakeHistory
      = (s.intakeHistory ++ [newIntake idNow timeNow amount s]).insertionSort
          (fun a b => a.time ≤ b.time) := by
  unfold handleAddIntake
  rw [hread]
  simp only [gt_iff_lt, if_pos hpos]

theorem handleAddIntake_of_rejected (parseFloat : String → Option R) (idNow timeNow : Int)
    (s : AppState R) (hread : ∀ amount, readAmount parseFloat s = some amount → amount ≤ 0) :
    handleAddIntake parseFloat idNow timeNow s = s := by
  unfold handleAddIntake
  cases h : readAmount parseFloat s with
  | none => rfl
  | some amount =>
    simp only [gt_iff_lt, if_neg (not_lt.2 (hread amount h))]

theorem inserted_of_pos (parseFloat : String → Option R) (idNow timeNow : Int)
    (s : AppState R) (amount : R) (hread : readAmount parseFloat s = some amount)
    (hpos : 0 < amount) :
    inserted parseFloat s (.addIntake idNow timeNow) = [newIntake idNow timeNow amount s] := by
  unfold inserted
  rw [hread]
  simp only [gt_iff_lt, if_pos hpos]

/-- Every event either accepts an add, with a positive amount, or leaves the
history a filtered copy of itself. -/
theorem step_cases (parseFloat : String → Option R) (s : AppState R) (a : Action) :
    (∃ idNow timeNow amount, 0 < amount
        ∧ (step parseFloat s a).intakeHistory
            = (s.intakeHistory ++ [newIntake idNow timeNow amount s]).insertionSort
                (fun a b => a.time ≤ b.time)
        ∧ inserted parseFloat s a = [newIntake idNow timeNow amount s])
      ∨ (∃ p : Intake R → Bool, (step parseFloat s a).intakeHistory = s.intakeHistory.filter p
          ∧ inserted parseFloat s a = []) := by
  cases a with
  | drinkChange value => exact Or.inr ⟨fun _ => true, by simp [step, handleDrinkChange], rfl⟩
  | customAmountChange value =>
    exact Or.inr ⟨fun _ => true, by simp [step, handleCustomAmountChange], rfl⟩
  | removeIntake id => exact Or.inr ⟨fun intake => intake.id ≠ id, rfl, rfl⟩
  | addIntake idNow timeNow =>
    cases h : readAmount parseFloat s with
    | none =>
      refine Or.inr ⟨fun _ => true, ?_, ?_⟩
      · rw [step, handleAddIntake_of_rejected _ _ _ _ (by simp [h])]; simp
      · simp [inserted, h]
    | some amount =>
      by_cases hpos : 0 < amount
      · exact Or.inl ⟨idNow, timeNow, amount, hpos,
          handleAddIntake_of_pos _ _ _ _ _ h hpos, inserted_of_pos _ _ _ _ _ h hpos⟩
      · refine Or.inr ⟨fun _ => true, ?_, ?_⟩
        · rw [step, handleAddIntake_of_rejected _ _ _ _
            (by intro b hb; rw [h] at hb; cases hb; exact not_lt.1 hpos)]
          simp
        · simp [inserted, h, hpos]

theorem step_sorted (parseFloat : String → Option R) (s : AppState R) (a : Action)
    (hs : s.intakeHistory.Sorted (fun a b => a.time ≤ b.time)) :
    (step parseFloat s a).intakeHistory.Sorted (fun a b => a.time ≤ b.time) := by
  rcases step_cases parseFloat s a with ⟨_, _, _, _, h, _⟩ | ⟨p, h, _⟩
  · rw [h]; exact sorted_insertionSort_time _
  · rw [h]; exact hs.filter p

theorem step_amount_pos (parseFloat : String → Option R) (s : AppState R) (a : Action)
    (hs : ∀ e ∈ s.intakeHistory, 0 < e.amount) :
    ∀ e ∈ (step parseFloat s a).intakeHistory, 0 < e.amount := by
  rcases step_cases parseFloat s a with ⟨_, _, amount, hpos, h, _⟩ | ⟨p, h, _⟩
  · rw [h]
    intro e he
    rw [List.mem_insertionSort, List.mem_append, List.mem_singleton] at he
    rcases he with he | he
    · exact hs e he
    · rw [he]; exact hpos
  · rw [h]
    intro e he
    exact hs e (List.mem_of_mem_filter he)

theorem step_stable (parseFloat : String → Option R) (s : AppState R) (a : Action) (τ : Int) :
    ((step parseFloat s a).intakeHistory.filter (fun e => e.time = τ)).Sublist
      (s.intakeHistory.filter (fun e => e.time = τ) ++ inserted parseFloat s a) := by
  rcases step_cases parseFloat s a with ⟨_, _, _, _, h, hi⟩ | ⟨p, h, hi⟩
  · rw [h, hi, filter_time_insertionSort, List.filter_append]
    exact List.Sublist.append (List.Sublist.refl _) (List.filter_sublist _)
  · rw [h, hi, List.append_nil, List.filter_filter]
    have : (s.intakeHistory.filter (fun e => decide (e.time = τ) && p e))
        = (s.intakeHistory.filter (fun e => decide (e.time = τ))).filter p := by
      rw [List.filter_filter]
      congr 1
      funext e
      exact Bool.and_comm _ _
    rw [this]
    exact List.filter_sublist _

theorem runFrom_invariants (parseFloat : String → Option R) (acts : List Action) :
    ∀ (s : AppState R) (pre : List (Intake R)),
      s.intakeHistory.Sorted (fun a b => a.time ≤ b.time) →
      (∀ e ∈ s.intakeHistory, 0 < e.amount) →
      (∀ τ : Int, (s.intakeHistory.filter (fun e => e.time = τ)).Sublist pre) →
      (runFrom parseFloat s acts).intakeHistory.Sorted (fun a b => a.time ≤ b.time)
        ∧ (∀ e ∈ (runFrom parseFloat s acts).intakeHistory, 0 < e.amount)
        ∧ (∀ τ : Int,
            ((runFrom parseFloat s acts).intakeHistory.filter (fun e => e.time = τ)).Sublist
              (pre ++ insertionLogFrom parseFloat s acts)) := by
  induction acts with
  | nil =>
    intro s pre hs hp hl
    exact ⟨hs, hp, fun τ => by simpa [insertionLogFrom] using hl τ⟩
  | cons a acts ih =>
    intro s pre hs hp hl
    have h := ih (step parseFloat s a) (pre ++ inserted parseFloat s a)
      (step_sorted parseFloat s a hs) (step_amount_pos parseFloat s a hp)
      (fun τ => (step_stable parseFloat s a τ).trans
        (List.Sublist.append (hl τ) (List.Sublist.refl _)))
    simpa [runFrom, insertionLogFrom, List.append_assoc] using h

theorem run_invariants (parseFloat : String → Option R) (acts : List Action) :
    (run parseFloat acts).intakeHistory.Sorted (fun a b => a.time ≤ b.time)
      ∧ (∀ e ∈ (run parseFloat acts).intakeHistory, 0 < e.amount)
      ∧ (∀ τ : Int,
          ((run parseFloat acts).intakeHistory.filter (fun e => e.time = τ)).Sublist
            (insertionLog parseFloat acts)) := by
  have h := runFrom_invariants parseFloat acts (initialState R) []
    (by simp [initialState]) (by simp [initialState]) (by simp [initialState])
  simpa [run, insertionLog] using h

end HistoryLemmas

/-! ## Intake history: the claims -/

section HistoryClaims

/-- C7: an add whose amount is not a number or is `≤ 0` leaves the state, and so
the history, unchanged; an add whose amount is `> 0` yields a history that is a
rearrangement of the previous events plus one new event carrying that amount
and the timestamp `timeNow`; every event of every reachable history has a
positive amount. -/
theorem handleAddIntake_validates {R : Type} [LinearOrderedField R]
    (parseFloat : String → Option R) :
    (∀ (s : AppState R) (idNow timeNow : Int),
        (∀ amount, readAmount parseFloat s = some amount → amount ≤ 0) →
        handleAddIntake parseFloat idNow timeNow s = s)
      ∧ (∀ (s : AppState R) (idNow timeNow : Int) (amount : R),
          readAmount parseFloat s = some amount → 0 < amount →
          ∃ e : Intake R, e.amount = amount ∧ e.time = timeNow ∧ e.id = idNow
            ∧ ((handleAddIntake parseFloat idNow timeNow s).intakeHistory).Perm
                (s.intakeHistory ++ [e]))
      ∧ (∀ (acts : List Action), ∀ e ∈ (run parseFloat acts).intakeHistory, 0 < e.amount) := by
  refine ⟨?_, ?_, ?_⟩
  · intro s idNow timeNow h
    exact handleAddIntake_of_rejected parseFloat idNow timeNow s h
  · intro s idNow timeNow amount hread hpos
    refine ⟨newIntake idNow timeNow amount s, rfl, rfl, rfl, ?_⟩
    rw [handleAddIntake_of_pos parseFloat idNow timeNow s amount hread hpos]
    exact List.perm_insertionSort _ _
  · intro acts
    exact (run_invariants parseFloat acts).2.1

/-- C9: in every state reached from the initial state by the handlers, the
history is in ascending order of timestamp; the events that share a timestamp
appear in the order in which they were inserted (they form a sublist of the
insertion log); and the first element of a non-empty history carries the
earliest timestamp. -/
theorem intakeHistory_ordered {R : Type} [LinearOrderedField R]
    (parseFloat : String → Option R) (acts : List Action) :
    (run parseFloat acts).intakeHistory.Sorted (fun a b => a.time ≤ b.time)
      ∧ (∀ τ : Int,
          ((run parseFloat acts).intakeHistory.filter (fun e => e.time = τ)).Sublist
            (insertionLog parseFloat acts))
      ∧ (∀ (first : Intake R) (rest : List (Intake R)),
          (run parseFloat acts).intakeHistory = first :: rest →
          ∀ e ∈ (run parseFloat acts).intakeHistory, first.time ≤ e.time) := by
  obtain ⟨hs, _, hl⟩ := run_invariants parseFloat acts
  refine ⟨hs, hl, ?_⟩
  intro first rest hfr e he
  rw [hfr] at hs he
  rcases List.mem_cons.1 he with h | h
  · rw [h]
  · exact List.rel_of_sorted_cons hs e h

end HistoryClaims

end CaffeineTracker
